import Mathlib

/-!
# Verification of the strawberry game room engine

Shallow embedding of the room state machine implemented in
`src/client/src/gameLogic.tsx`, together with theorems settling the frozen
claims about it.

Modelling conventions:
* TS `number` indexes that may be negative (`n - 1` for 1-based numbers,
  `findIndex` results) are `Int`; `listGetInt?` models `arr[i]` access.
* Randomness (`randomLetter`, `shuffle` from the repository's `utils` module,
  which is not under `src/`) is passed in explicitly: functions that draw
  letters take a letter or an indexed letter supply as an extra argument, and
  `startGameRoom` takes the shuffle function as a parameter.
* TS exceptions become `Except String` (for `giveHint`) or `Option`
  (elsewhere).  An out-of-range array access, which in the source raises a
  `TypeError` propagated to the caller, is modelled as the failure value of
  the surrounding function; every theorem below restricts to in-range
  indexes, so this branch stays unexercised.
-/

namespace Strawberry

abbrev Letter := Char

/-- no J, Q, V, X, Z -/
def LETTERS : List Letter :=
  ['A', 'B', 'C', 'D', 'E', 'F', 'G', 'H', 'I', 'K', 'L', 'M', 'N', 'O', 'P',
   'R', 'S', 'T', 'U', 'W', 'Y']

def MIN_PLAYERS : Nat := 2

def MAX_PLAYERS : Nat := 6

def STARTING_HINTS : Int := 11

/-- TS `arr[i]` with a possibly negative index. -/
def listGetInt? {α : Type} (l : List α) (i : Int) : Option α :=
  if i < 0 then Option.none else l.get? i.toNat

/-- Modelled from the spec: `mapNth` from the repository's `utils` module
(not under `src/`) — the immutable-update-by-copy helper returning a copy of
the list with only the element at the given index transformed. -/
def mapNthAux {α : Type} (f : α → α) (n : Int) : Int → List α → List α
  | _, [] => []
  | i, x :: xs => (if i = n then f x else x) :: mapNthAux f n (i + 1) xs

def mapNth {α : Type} (l : List α) (n : Int) (f : α → α) : List α :=
  mapNthAux f n 0 l

/-! ## Data model (spec section 3 and the type usage in `gameLogic.tsx`;
the repository's `gameState.tsx` / `gameTypes.tsx` are not under `src/`, so
the shapes are modelled from the spec and from how `gameLogic.tsx` uses
them). -/

structure StartingPlayer where
  name : String
  word : Option (List Letter)
deriving DecidableEq

structure StartingPhase where
  wordLength : Nat
  players : List StartingPlayer
deriving DecidableEq

structure Hand where
  letters : List Letter
  guesses : List (Option Letter)
  activeIndex : Nat
deriving DecidableEq

structure HintingPlayer where
  name : String
  hand : Hand
  hintsGiven : Nat
deriving DecidableEq

structure Dummy where
  currentLetter : Letter
  untilFreeHint : Int
deriving DecidableEq

inductive LetterAndSource
  | player (playerNumber : Nat) (letter : Letter)
  | wildcard (letter : Letter)
  | dummy (dummyNumber : Nat) (letter : Letter)
  | bonus (letter : Letter)
deriving DecidableEq

structure Hint where
  givenByPlayer : Nat
  lettersAndSources : List LetterAndSource
deriving DecidableEq

inductive ResolveAction
  | none (player : Nat)
  | flip (player : Nat)
  | guess (player : Nat) (guess : Letter) (actual : Letter)
deriving DecidableEq

def ResolveAction.player : ResolveAction → Nat
  | .none p => p
  | .flip p => p
  | .guess p _ _ => p

structure HintLogEntry where
  hint : Hint
  totalHints : Int
  activeIndexes : List Nat
  playerActions : List ResolveAction
deriving DecidableEq

structure ResolvingHint where
  hint : Hint
  playerActions : List ResolveAction
  activeIndexes : List Nat
deriving DecidableEq

/-- `HintingPhase` with `activeHint` in the `PROPOSING` state; the
`proposedHints` map is the `activeHint.proposedHints` record. -/
structure ProposingHintPhase where
  wordLength : Nat
  players : List HintingPlayer
  dummies : List Dummy
  bonuses : List Letter
  hintsRemaining : Int
  hintLog : List HintLogEntry
  proposedHints : List (Nat × Hint)
deriving DecidableEq

/-- `HintingPhase` with `activeHint` in the `RESOLVING` state. -/
structure ResolvingHintPhase where
  wordLength : Nat
  players : List HintingPlayer
  dummies : List Dummy
  bonuses : List Letter
  hintsRemaining : Int
  hintLog : List HintLogEntry
  activeHint : ResolvingHint
deriving DecidableEq

inductive HintingPhase
  | proposing (room : ProposingHintPhase)
  | resolving (room : ResolvingHintPhase)
deriving DecidableEq

inductive EndgameLetterChoice
  | player (index : Nat)
  | wildcard (letter : Letter)
  | bonus (letter : Letter)
deriving DecidableEq

structure EndgamePlayer where
  name : String
  hand : Hand
  hintsGiven : Nat
  guess : List EndgameLetterChoice
  committed : Bool
deriving DecidableEq

structure EndgamePhase where
  wordLength : Nat
  players : List EndgamePlayer
  dummies : List Dummy
  bonuses : List Letter
  hintsRemaining : Int
  hintLog : List HintLogEntry
deriving DecidableEq

/-! ## Starting phase operations -/

def newStartingPhase (firstPlayerName : String) (wordLength : Nat) : StartingPhase :=
  { wordLength := wordLength, players := [{ name := firstPlayerName, word := Option.none }] }

def addPlayerToRoom (room : StartingPhase) (playerName : String) : StartingPhase :=
  { room with players := room.players ++ [{ name := playerName, word := Option.none }] }

def setPlayerWord (room : StartingPhase) (playerName : String) (word : Option (List Letter)) : StartingPhase :=
  { room with players := room.players.map (fun player =>
      if player.name = playerName then { name := playerName, word := word } else player) }

def isRoomReady (room : StartingPhase) : Bool :=
  room.players.all (fun player => player.word.isSome) &&
    decide (MIN_PLAYERS ≤ room.players.length) &&
    decide (room.players.length ≤ MAX_PLAYERS)

/-- The fixed dummy-countdown schedule keyed by player count; `Option.none`
models the `"wrong number of players"` error. -/
def dummyLettersForFreeHint : Nat → Option (List Int)
  | 2 => some [7, 8, 9, 10]
  | 3 => some [7, 8, 9]
  | 4 => some [7, 8]
  | 5 => some [7]
  | 6 => some []
  | _ => Option.none

/-- The dummies built by `startGameRoom`: one per countdown slot, each with a
random initial letter (index `i` draws `rand i`). -/
def mkDummiesAux (rand : Nat → Letter) : Nat → List Int → List Dummy
  | _, [] => []
  | i, u :: us => { currentLetter := rand i, untilFreeHint := u } :: mkDummiesAux rand (i + 1) us

/-- The player list built by `startGameRoom`: each player at `index` receives
the previous player's word (circularly), shuffled. -/
def buildPlayers (room : StartingPhase) (shuffleFn : Nat → List Letter → List Letter) :
    Nat → List StartingPlayer → Option (List HintingPlayer)
  | _, [] => some []
  | index, player :: rest =>
    ((room.players.get? ((index + room.players.length - 1) % room.players.length)).bind
        (fun prevp => prevp.word)).bind (fun w =>
      (buildPlayers room shuffleFn (index + 1) rest).map (fun others =>
        { name := player.name,
          hand := { letters := shuffleFn index w,
                    guesses := w.map (fun _ => Option.none),
                    activeIndex := 0 },
          hintsGiven := 0 } :: others))

/-- Move a room from the StartingPhase to the HintingPhase.  `Option.none`
models the `"Room is not ready"` / `"wrong number of players"` errors. -/
def startGameRoom (shuffleFn : Nat → List Letter → List Letter) (dummyRand : Nat → Letter)
    (room : StartingPhase) : Option HintingPhase :=
  match buildPlayers room shuffleFn 0 room.players with
  | Option.none => Option.none
  | some players =>
    match dummyLettersForFreeHint room.players.length with
    | Option.none => Option.none
    | some cds =>
      some (HintingPhase.proposing
        { wordLength := room.wordLength,
          players := players,
          dummies := mkDummiesAux dummyRand 0 cds,
          bonuses := [],
          hintsRemaining := STARTING_HINTS,
          hintLog := [],
          proposedHints := [] })

/-! ## Hint legality and `giveHint` -/

/-- One step of `giveHint`'s sanity check that a sourced letter actually
exists.  An out-of-range dummy or player number is a `TypeError` at the
source; it is modelled as the same failure here and never exercised by the
theorems below. -/
def checkLetterAndSource (room : ProposingHintPhase) (ls : LetterAndSource) : Except String Unit :=
  match ls with
  | .bonus l => if l ∈ room.bonuses then Except.ok () else Except.error "illegal hint"
  | .dummy n l =>
    match listGetInt? room.dummies ((n : Int) - 1) with
    | some d => if d.currentLetter = l then Except.ok () else Except.error "illegal hint"
    | Option.none => Except.error "illegal hint"
  | .player n l =>
    match listGetInt? room.players ((n : Int) - 1) with
    | some p =>
      if p.hand.letters.get? p.hand.activeIndex = some l then Except.ok ()
      else Except.error "illegal hint"
    | Option.none => Except.error "illegal hint"
  | .wildcard _ => Except.ok ()

/-- The `for` loop at the top of `giveHint`, failing at the first illegal
sourced letter. -/
def checkHint (room : ProposingHintPhase) : List LetterAndSource → Except String Unit
  | [] => Except.ok ()
  | ls :: rest =>
    match checkLetterAndSource room ls with
    | Except.ok () => checkHint room rest
    | Except.error e => Except.error e

/-- The set of players referenced by a hint's player-sourced letters
(insertion into the JS `Set` in `playersWithOutstandingAction`). -/
def hintReferencedPlayers (hint : Hint) : Finset Nat :=
  (hint.lettersAndSources.filterMap (fun ls =>
    match ls with
    | .player n _ => some n
    | _ => Option.none)).toFinset

def playersWithOutstandingAction (activeHint : ResolvingHint) : Finset Nat :=
  hintReferencedPlayers activeHint.hint \
    (activeHint.playerActions.map ResolveAction.player).toFinset

/-- The `ResolvingHintPhase` that `giveHint` builds after its legality check:
the giver's `hintsGiven` is bumped and each player's current `activeIndex`
is snapshotted. -/
def giveHintResolvingRoom (room : ProposingHintPhase) (hint : Hint) : ResolvingHintPhase :=
  { wordLength := room.wordLength,
    players := mapNth room.players ((hint.givenByPlayer : Int) - 1)
      (fun player => { player with hintsGiven := player.hintsGiven + 1 }),
    dummies := room.dummies,
    bonuses := room.bonuses,
    hintsRemaining := room.hintsRemaining,
    hintLog := room.hintLog,
    activeHint := { hint := hint,
                    playerActions := [],
                    activeIndexes := room.players.map (fun player => player.hand.activeIndex) } }

/-! ## Resolution -/

/-- JS `Array.findIndex`: first index satisfying the predicate, `-1` if none. -/
def findIndexAux {α : Type} (p : α → Bool) : List α → Int
  | [] => -1
  | x :: xs =>
    if p x then 0
    else
      let r := findIndexAux p xs
      if r < 0 then -1 else r + 1

/-- `room.bonuses.findIndex((bonus) => bonus === letter)` in `fullyResolveHint`. -/
def bonusIndex (bonuses : List Letter) (l : Letter) : Int :=
  findIndexAux (fun b => b == l) bonuses

/-- The `dummiesUsed` set of `fullyResolveHint` (0-indexed). -/
def dummiesUsedOf (hint : Hint) : Finset Int :=
  (hint.lettersAndSources.filterMap (fun ls =>
    match ls with
    | .dummy n _ => some ((n : Int) - 1)
    | _ => Option.none)).toFinset

/-- The `bonusesUsed` set of `fullyResolveHint` (0-indexed; `-1` for a cited
letter that is absent from the pool). -/
def bonusesUsedOf (bonuses : List Letter) (hint : Hint) : Finset Int :=
  (hint.lettersAndSources.filterMap (fun ls =>
    match ls with
    | .bonus l => some (bonusIndex bonuses l)
    | _ => Option.none)).toFinset

/-- The dummy map of `fullyResolveHint`: a consumed dummy gets a fresh random
letter and its countdown decremented. -/
def processDummiesAux (rand : Nat → Letter) (used : Finset Int) : Nat → List Dummy → List Dummy
  | _, [] => []
  | i, d :: ds =>
    (if (i : Int) ∈ used then
        { currentLetter := rand i, untilFreeHint := d.untilFreeHint - 1 }
      else d) :: processDummiesAux rand used (i + 1) ds

def processDummies (rand : Nat → Letter) (dummies : List Dummy) (used : Finset Int) : List Dummy :=
  processDummiesAux rand used 0 dummies

/-- How many consumed dummies had `untilFreeHint === 1`, i.e. how many times
`fullyResolveHint` executes `hintsRemaining += 1`. -/
def freeHintsGainedAux (used : Finset Int) : Nat → List Dummy → Nat
  | _, [] => 0
  | i, d :: ds =>
    (if (i : Int) ∈ used ∧ d.untilFreeHint = 1 then 1 else 0) + freeHintsGainedAux used (i + 1) ds

def freeHintsGained (dummies : List Dummy) (used : Finset Int) : Nat :=
  freeHintsGainedAux used 0 dummies

/-- The bonus filter of `fullyResolveHint`: drop the positions collected in
`bonusesUsed`. -/
def processBonusesAux (used : Finset Int) : Nat → List Letter → List Letter
  | _, [] => []
  | i, b :: bs =>
    if (i : Int) ∈ used then processBonusesAux used (i + 1) bs
    else b :: processBonusesAux used (i + 1) bs

def processBonuses (bonuses : List Letter) (used : Finset Int) : List Letter :=
  processBonusesAux used 0 bonuses

/-- Specification device for the bonus filter: how many positions holding
`L` (from start index `i`) lie in the consumed-index set, i.e. how many
copies of `L` the filter drops. -/
def removedCountAux (used : Finset Int) (L : Letter) : Nat → List Letter → Nat
  | _, [] => 0
  | i, x :: xs =>
    (if x = L ∧ (i : Int) ∈ used then 1 else 0) + removedCountAux used L (i + 1) xs

/-- Resolution completion (Resolving back to Proposing): append the log
entry, pay one hint, refresh consumed dummies (granting a free hint per
consumed dummy whose countdown was exactly 1) and remove consumed bonuses. -/
def fullyResolveHint (rand : Nat → Letter) (room : ResolvingHintPhase) : ProposingHintPhase :=
  { wordLength := room.wordLength,
    players := room.players,
    dummies := processDummies rand room.dummies (dummiesUsedOf room.activeHint.hint),
    bonuses := processBonuses room.bonuses (bonusesUsedOf room.bonuses room.activeHint.hint),
    hintsRemaining := room.hintsRemaining - 1 +
      (freeHintsGained room.dummies (dummiesUsedOf room.activeHint.hint) : Int),
    hintLog := room.hintLog ++
      [{ hint := room.activeHint.hint,
         totalHints := (room.hintLog.length : Int) + room.hintsRemaining,
         activeIndexes := room.activeHint.activeIndexes,
         playerActions := room.activeHint.playerActions }],
    proposedHints := [] }

def giveHint (randD : Nat → Letter) (room : ProposingHintPhase) (hint : Hint) :
    Except String HintingPhase :=
  match checkHint room hint.lettersAndSources with
  | Except.error e => Except.error e
  | Except.ok () =>
    let newRoom := giveHintResolvingRoom room hint
    if playersWithOutstandingAction newRoom.activeHint = ∅ then
      Except.ok (HintingPhase.proposing (fullyResolveHint randD newRoom))
    else
      Except.ok (HintingPhase.resolving newRoom)

/-- The hand/bonus effect of one `ResolveAction` (no legality check: whatever
action arrives is applied). -/
def applyResolution (rand : Letter) (room : ResolvingHintPhase) (action : ResolveAction) :
    ResolvingHintPhase :=
  match action with
  | .none _ => room
  | .flip pn =>
    match listGetInt? room.players ((pn : Int) - 1) with
    | Option.none => room
    | some player =>
      let letters :=
        if (player.hand.activeIndex : Int) = (room.wordLength : Int) - 1 then
          player.hand.letters ++ [rand]
        else player.hand.letters
      { room with
        players := mapNth room.players ((pn : Int) - 1) (fun _ =>
          { player with
            hand := { letters := letters,
                      guesses := player.hand.guesses,
                      activeIndex := player.hand.activeIndex + 1 } }) }
  | .guess pn g actual =>
    match listGetInt? room.players ((pn : Int) - 1) with
    | Option.none => room
    | some player =>
      { room with
        bonuses := if g = actual then room.bonuses ++ [g] else room.bonuses,
        players := mapNth room.players ((pn : Int) - 1) (fun _ =>
          { player with
            hand := { letters := player.hand.letters.take room.wordLength ++ [rand],
                      guesses := player.hand.guesses,
                      activeIndex := player.hand.activeIndex } }) }

/-- Record the submitted action on the active hint. -/
def recordResolveAction (room : ResolvingHintPhase) (action : ResolveAction) : ResolvingHintPhase :=
  { room with
    activeHint := { room.activeHint with
                    playerActions := room.activeHint.playerActions ++ [action] } }

def performResolveAction (randA : Letter) (randD : Nat → Letter) (room : ResolvingHintPhase)
    (action : ResolveAction) : HintingPhase :=
  let newRoom := applyResolution randA (recordResolveAction room action) action
  if playersWithOutstandingAction newRoom.activeHint = ∅ then
    HintingPhase.proposing (fullyResolveHint randD newRoom)
  else
    HintingPhase.resolving newRoom

/-! ## Endgame -/

def HintingPhase.wordLength : HintingPhase → Nat
  | .proposing room => room.wordLength
  | .resolving room => room.wordLength

def HintingPhase.players : HintingPhase → List HintingPlayer
  | .proposing room => room.players
  | .resolving room => room.players

def HintingPhase.dummies : HintingPhase → List Dummy
  | .proposing room => room.dummies
  | .resolving room => room.dummies

def HintingPhase.bonuses : HintingPhase → List Letter
  | .proposing room => room.bonuses
  | .resolving room => room.bonuses

def HintingPhase.hintLog : HintingPhase → List HintLogEntry
  | .proposing room => room.hintLog
  | .resolving room => room.hintLog

def moveToEndgame (room : HintingPhase) : EndgamePhase :=
  { wordLength := room.wordLength,
    dummies := room.dummies,
    bonuses := room.bonuses,
    hintLog := room.hintLog,
    hintsRemaining := 0,
    players := room.players.map (fun player =>
      { name := player.name,
        hand := { guesses := player.hand.guesses,
                  letters := player.hand.letters.take room.wordLength,
                  activeIndex := room.wordLength },
        hintsGiven := player.hintsGiven,
        guess := [],
        committed := false }) }

/-- First loop of `availableLetters`: collect the player's own claimed hand
indexes, failing on a duplicate (`InvalidLetters`). -/
def collectOwnIndexes : List EndgameLetterChoice → Finset Nat → Option (Finset Nat)
  | [], s => some s
  | c :: rest, s =>
    match c with
    | .player i => if i ∈ s then Option.none else collectOwnIndexes rest (insert i s)
    | _ => collectOwnIndexes rest s

/-- Inner loop of `availableLetters` over one player's guess: claim the
wildcard (at most once globally) and bonus letters (each removed from the
remaining pool by first index), failing on over-claim (`InvalidLetters`). -/
def claimWildBonus : List EndgameLetterChoice → Bool → List Letter → Option (Bool × List Letter)
  | [], avail, bonuses => some (avail, bonuses)
  | c :: rest, avail, bonuses =>
    match c with
    | .wildcard _ => if avail then claimWildBonus rest false bonuses else Option.none
    | .bonus l =>
      let ix := findIndexAux (fun b => b == l) bonuses
      if ix < 0 then Option.none
      else claimWildBonus rest avail (bonuses.eraseIdx ix.toNat)
    | .player _ => claimWildBonus rest avail bonuses

/-- Outer loop of `availableLetters` over every player in the room. -/
def scanPlayers : List EndgamePlayer → Bool → List Letter → Option (Bool × List Letter)
  | [], avail, bonuses => some (avail, bonuses)
  | p :: rest, avail, bonuses =>
    match claimWildBonus p.guess avail bonuses with
    | some (avail2, bonuses2) => scanPlayers rest avail2 bonuses2
    | Option.none => Option.none

/-- `availableLetters`: re-derive, from scratch, which letter choices are
still available to `playerNumber`; `Option.none` models the thrown
`InvalidLetters`. -/
def availableLetters (room : EndgamePhase) (playerNumber : Nat) :
    Option (List EndgameLetterChoice) := do
  let player ← listGetInt? room.players ((playerNumber : Int) - 1)
  let usedOwnLetters ← collectOwnIndexes player.guess ∅
  let (wildcardAvailable, bonuses) ← scanPlayers room.players true room.bonuses
  pure
    (((List.range room.wordLength).filter (fun i => decide (i ∉ usedOwnLetters))).map
        EndgameLetterChoice.player
      ++ (if wildcardAvailable then [EndgameLetterChoice.wildcard '*'] else [])
      ++ bonuses.map EndgameLetterChoice.bonus)

/-- The candidate room `setFinalGuess` builds: the input room with only the
given player's `guess` replaced. -/
def withFinalGuess (room : EndgamePhase) (playerNumber : Nat)
    (guess : List EndgameLetterChoice) : EndgamePhase :=
  { room with
    players := mapNth room.players ((playerNumber : Int) - 1)
      (fun player => { player with guess := guess }) }

/-- Tentatively install a final guess and re-validate; `Option.none` is the
rejected sentinel. -/
def setFinalGuess (room : EndgamePhase) (playerNumber : Nat)
    (guess : List EndgameLetterChoice) : Option EndgamePhase :=
  match availableLetters (withFinalGuess room playerNumber guess) playerNumber with
  | some _ => some (withFinalGuess room playerNumber guess)
  | Option.none => Option.none

def commitFinalGuess (room : EndgamePhase) (playerNumber : Nat) : EndgamePhase :=
  { room with
    players := mapNth room.players ((playerNumber : Int) - 1)
      (fun player => { player with committed := true }) }

/-! ## Predicates and concrete rooms used in the statements below -/

/-- A sourced letter that does not match an actually-available source (with
the cited dummy/player number in range): an absent bonus letter, a mismatched
dummy letter, or a letter differing from the cited player's currently exposed
letter. -/
def IsIllegalSource (room : ProposingHintPhase) (ls : LetterAndSource) : Prop :=
  (∃ l, ls = LetterAndSource.bonus l ∧ l ∉ room.bonuses) ∨
  (∃ n l d, ls = LetterAndSource.dummy n l ∧
    listGetInt? room.dummies ((n : Int) - 1) = some d ∧ d.currentLetter ≠ l) ∨
  (∃ n l p, ls = LetterAndSource.player n l ∧
    listGetInt? room.players ((n : Int) - 1) = some p ∧
    p.hand.letters.get? p.hand.activeIndex ≠ some l)

def wildcardCount (g : List EndgameLetterChoice) : Nat :=
  g.countP (fun c => match c with | .wildcard _ => true | _ => false)

def hasWildcard (g : List EndgameLetterChoice) : Bool :=
  g.any (fun c => match c with | .wildcard _ => true | _ => false)

/-- The dummy countdown list of a started room, for stating the schedule
claims. -/
def dummyCountdowns : Option HintingPhase → Option (List Int)
  | some (.proposing room) => some (room.dummies.map Dummy.untilFreeHint)
  | some (.resolving room) => some (room.dummies.map Dummy.untilFreeHint)
  | Option.none => Option.none

def idShuffle : Nat → List Letter → List Letter := fun _ w => w

def constLetterA : Nat → Letter := fun _ => 'A'

/-- A concrete ready 4-player starting room. -/
def fourPlayerStart : StartingPhase :=
  { wordLength := 1,
    players := [⟨"p1", some ['A']⟩, ⟨"p2", some ['B']⟩, ⟨"p3", some ['C']⟩, ⟨"p4", some ['D']⟩] }

/-- A concrete 1-player starting room whose single player has a word. -/
def onePlayerStart : StartingPhase :=
  { wordLength := 1, players := [⟨"p1", some ['A']⟩] }

/-- A concrete proposing-phase room. -/
def proposingRoomW : ProposingHintPhase :=
  { wordLength := 1,
    players := [⟨"p1", ⟨['A'], [Option.none], 0⟩, 0⟩, ⟨"p2", ⟨['B'], [Option.none], 0⟩, 0⟩],
    dummies := [⟨'C', 5⟩],
    bonuses := ['B'],
    hintsRemaining := 11,
    hintLog := [],
    proposedHints := [] }

/-- A concrete resolving-phase room whose active hint references players 1
and 2. -/
def resolvingRoomW : ResolvingHintPhase :=
  { wordLength := 1,
    players := [⟨"p1", ⟨['A'], [Option.none], 0⟩, 0⟩, ⟨"p2", ⟨['B'], [Option.none], 0⟩, 0⟩],
    dummies := [⟨'C', 1⟩, ⟨'D', 5⟩],
    bonuses := [],
    hintsRemaining := 5,
    hintLog := [],
    activeHint := ⟨⟨1, [.player 1 'A', .player 2 'B']⟩, [], [0, 0]⟩ }

/-- A concrete resolving-phase room whose active hint consumes dummy 1, a
dummy with countdown 1. -/
def resolvingRoomW5 : ResolvingHintPhase :=
  { wordLength := 1,
    players := [⟨"p1", ⟨['A'], [Option.none], 0⟩, 0⟩],
    dummies := [⟨'C', 1⟩, ⟨'D', 5⟩],
    bonuses := [],
    hintsRemaining := 5,
    hintLog := [],
    activeHint := ⟨⟨1, [.dummy 1 'C']⟩, [], [0]⟩ }

/-- A concrete resolving-phase room whose active hint mixes a duplicated
bonus citation with dummy, player and wildcard sources. -/
def resolvingRoomW9 : ResolvingHintPhase :=
  { wordLength := 1,
    players := [⟨"p1", ⟨['A'], [Option.none], 0⟩, 0⟩],
    dummies := [⟨'C', 5⟩],
    bonuses := ['B', 'B', 'D'],
    hintsRemaining := 5,
    hintLog := [],
    activeHint := ⟨⟨1, [.bonus 'B', .bonus 'B', .dummy 1 'C', .player 1 'A', .wildcard '*']⟩,
                   [], [0]⟩ }

/-- A concrete endgame room where player 1's installed guess claims the
wildcard. -/
def endgameRoomW : EndgamePhase :=
  { wordLength := 1,
    players := [⟨"p1", ⟨['A'], [Option.none], 1⟩, 0, [.wildcard '*'], false⟩,
                ⟨"p2", ⟨['B'], [Option.none], 1⟩, 0, [], false⟩],
    dummies := [],
    bonuses := [],
    hintsRemaining := 0,
    hintLog := [] }

/-! ## Basic lemmas about the helpers -/

theorem listGetInt?_natCast {α : Type} (l : List α) (m : Nat) :
    listGetInt? l (m : Int) = l.get? m := by
  simp [listGetInt?]

theorem natCast_succ_sub_one (m : Nat) : ((m + 1 : Nat) : Int) - 1 = (m : Int) := by
  push_cast
  ring

theorem mapNthAux_get? {α : Type} (f : α → α) (n : Int) :
    ∀ (l : List α) (s : Int) (j : Nat),
      (mapNthAux f n s l).get? j = (l.get? j).map (fun x => if s + (j : Int) = n then f x else x)
  | [], s, j => by simp [mapNthAux]
  | x :: xs, s, 0 => by simp [mapNthAux]
  | x :: xs, s, j + 1 => by
    have ih := mapNthAux_get? f n xs (s + 1) j
    simp only [mapNthAux, List.get?, ih]
    have harith : s + 1 + (j : Int) = s + ((j : Int) + 1) := by ring
    rw [harith]
    push_cast
    ring_nf

theorem mapNth_get? {α : Type} (l : List α) (n : Int) (f : α → α) (j : Nat) :
    (mapNth l n f).get? j = (l.get? j).map (fun x => if (j : Int) = n then f x else x) := by
  have := mapNthAux_get? f n l 0 j
  simpa [mapNth] using this

theorem mapNthAux_length {α : Type} (f : α → α) (n : Int) :
    ∀ (l : List α) (s : Int), (mapNthAux f n s l).length = l.length
  | [], _ => rfl
  | x :: xs, s => by simp [mapNthAux, mapNthAux_length f n xs (s + 1)]

theorem mapNth_length {α : Type} (l : List α) (n : Int) (f : α → α) :
    (mapNth l n f).length = l.length :=
  mapNthAux_length f n l 0

theorem checkLetterAndSource_ok_or (room : ProposingHintPhase) (ls : LetterAndSource) :
    checkLetterAndSource room ls = Except.ok () ∨
      checkLetterAndSource room ls = Except.error "illegal hint" := by
  cases ls with
  | bonus l =>
    by_cases h : l ∈ room.bonuses <;> simp [checkLetterAndSource, h]
  | dummy n l =>
    cases hd : listGetInt? room.dummies ((n : Int) - 1) with
    | none => right; simp [checkLetterAndSource, hd]
    | some d =>
      by_cases h : d.currentLetter = l <;> simp [checkLetterAndSource, hd, h]
  | player n l =>
    cases hp : listGetInt? room.players ((n : Int) - 1) with
    | none => right; simp [checkLetterAndSource, hp]
    | some p =>
      by_cases h : p.hand.letters.get? p.hand.activeIndex = some l
      · left
        simp only [checkLetterAndSource, hp]
        rw [if_pos h]
      · right
        simp only [checkLetterAndSource, hp]
        rw [if_neg h]
  | wildcard l => left; rfl

theorem checkHint_error_of_mem (room : ProposingHintPhase) :
    ∀ (l : List LetterAndSource) (ls : LetterAndSource), ls ∈ l →
      checkLetterAndSource room ls = Except.error "illegal hint" →
      checkHint room l = Except.error "illegal hint"
  | [], ls, hmem, _ => by cases hmem
  | x :: xs, ls, hmem, hbad => by
    rcases List.mem_cons.mp hmem with rfl | htail
    · simp [checkHint, hbad]
    · rcases checkLetterAndSource_ok_or room x with hok | herr
      · simp only [checkHint, hok]
        exact checkHint_error_of_mem room xs ls htail hbad
      · simp [checkHint, herr]

theorem checkHint_ok_of_forall (room : ProposingHintPhase) :
    ∀ (l : List LetterAndSource),
      (∀ ls ∈ l, checkLetterAndSource room ls = Except.ok ()) →
      checkHint room l = Except.ok ()
  | [], _ => rfl
  | x :: xs, h => by
    have hx := h x (List.mem_cons_self x xs)
    simp only [checkHint, hx]
    exact checkHint_ok_of_forall room xs (fun ls hls => h ls (List.mem_cons_of_mem x hls))

theorem applyResolution_activeHint (rand : Letter) (room : ResolvingHintPhase)
    (action : ResolveAction) :
    (applyResolution rand room action).activeHint = room.activeHint := by
  cases action with
  | none p => rfl
  | flip p =>
    simp only [applyResolution]
    cases listGetInt? room.players ((p : Int) - 1) <;> rfl
  | guess p g a =>
    simp only [applyResolution]
    cases listGetInt? room.players ((p : Int) - 1) <;> rfl

theorem applyResolution_dummies (rand : Letter) (room : ResolvingHintPhase)
    (action : ResolveAction) :
    (applyResolution rand room action).dummies = room.dummies := by
  cases action with
  | none p => rfl
  | flip p =>
    simp only [applyResolution]
    cases listGetInt? room.players ((p : Int) - 1) <;> rfl
  | guess p g a =>
    simp only [applyResolution]
    cases listGetInt? room.players ((p : Int) - 1) <;> rfl

theorem applyResolution_hintsRemaining (rand : Letter) (room : ResolvingHintPhase)
    (action : ResolveAction) :
    (applyResolution rand room action).hintsRemaining = room.hintsRemaining := by
  cases action with
  | none p => rfl
  | flip p =>
    simp only [applyResolution]
    cases listGetInt? room.players ((p : Int) - 1) <;> rfl
  | guess p g a =>
    simp only [applyResolution]
    cases listGetInt? room.players ((p : Int) - 1) <;> rfl

theorem applyResolution_hintLog (rand : Letter) (room : ResolvingHintPhase)
    (action : ResolveAction) :
    (applyResolution rand room action).hintLog = room.hintLog := by
  cases action with
  | none p => rfl
  | flip p =>
    simp only [applyResolution]
    cases listGetInt? room.players ((p : Int) - 1) <;> rfl
  | guess p g a =>
    simp only [applyResolution]
    cases listGetInt? room.players ((p : Int) - 1) <;> rfl

theorem applyResolution_wordLength (rand : Letter) (room : ResolvingHintPhase)
    (action : ResolveAction) :
    (applyResolution rand room action).wordLength = room.wordLength := by
  cases action with
  | none p => rfl
  | flip p =>
    simp only [applyResolution]
    cases listGetInt? room.players ((p : Int) - 1) <;> rfl
  | guess p g a =>
    simp only [applyResolution]
    cases listGetInt? room.players ((p : Int) - 1) <;> rfl

/-! ## C1: `giveHint` rejects hints citing unavailable sources -/

/-- C1: in a proposing-phase room, `giveHint` fails with the
`"illegal hint"` error — returning no new state, so the room is unchanged —
whenever some sourced letter of the hint does not match an actually-available
source (absent bonus letter, mismatched dummy letter, or a letter differing
from the cited player's currently exposed letter); wildcard sources are
always legal.  The check precedes all mutation: the error is produced before
any state is built. -/
theorem giveHint_illegal_rejected (room : ProposingHintPhase) (randD : Nat → Letter)
    (hint : Hint) (ls : LetterAndSource) (hmem : ls ∈ hint.lettersAndSources)
    (hbad : IsIllegalSource room ls) :
    giveHint randD room hint = Except.error "illegal hint" ∧
      ∀ l, checkLetterAndSource room (LetterAndSource.wildcard l) = Except.ok () := by
  have hsrc : checkLetterAndSource room ls = Except.error "illegal hint" := by
    rcases hbad with ⟨l, rfl, hnot⟩ | ⟨n, l, d, rfl, hd, hne⟩ | ⟨n, l, p, rfl, hp, hne⟩
    · simp [checkLetterAndSource, hnot]
    · simp only [checkLetterAndSource, hd]
      rw [if_neg hne]
    · simp only [checkLetterAndSource, hp]
      rw [if_neg hne]
  have hcheck := checkHint_error_of_mem room hint.lettersAndSources ls hmem hsrc
  refine ⟨?_, fun l => rfl⟩
  simp [giveHint, hcheck]

/-- Witness for C1: a hint citing the absent bonus letter `'E'` is rejected. -/
theorem giveHint_illegal_rejected_witness :
    giveHint constLetterA proposingRoomW ⟨1, [LetterAndSource.bonus 'E']⟩ =
      Except.error "illegal hint" :=
  (giveHint_illegal_rejected proposingRoomW constLetterA ⟨1, [LetterAndSource.bonus 'E']⟩
    (LetterAndSource.bonus 'E') (by simp) (Or.inl ⟨'E', rfl, by decide⟩)).1

/-! ## C8: `moveToEndgame` -/

/-- C8: `moveToEndgame` yields an endgame room with each hand truncated to
the first `wordLength` letters, `activeIndex = wordLength`, the per-position
guesses carried over, `guess = []` and `committed = false` added, while
`wordLength`, `dummies`, `bonuses` and `hintLog` are exactly those of the
input room and `hintsRemaining` is 0. -/
theorem moveToEndgame_spec (room : HintingPhase) :
    (moveToEndgame room).wordLength = room.wordLength ∧
    (moveToEndgame room).dummies = room.dummies ∧
    (moveToEndgame room).bonuses = room.bonuses ∧
    (moveToEndgame room).hintLog = room.hintLog ∧
    (moveToEndgame room).hintsRemaining = 0 ∧
    (moveToEndgame room).players.length = room.players.length ∧
    ∀ i pl, room.players.get? i = some pl →
      (moveToEndgame room).players.get? i = some
        { name := pl.name,
          hand := { letters := pl.hand.letters.take room.wordLength,
                    guesses := pl.hand.guesses,
                    activeIndex := room.wordLength },
          hintsGiven := pl.hintsGiven,
          guess := [],
          committed := false } := by
  refine ⟨rfl, rfl, rfl, rfl, rfl, by simp [moveToEndgame], ?_⟩
  intro i pl h
  simp only [moveToEndgame]
  rw [List.get?_map, h]
  rfl

/-- Witness for C8 at a concrete hinting room. -/
theorem moveToEndgame_spec_witness :
    (moveToEndgame (HintingPhase.proposing proposingRoomW)).hintsRemaining = 0 ∧
    (moveToEndgame (HintingPhase.proposing proposingRoomW)).players.get? 0 = some
      { name := "p1",
        hand := { letters := ['A'], guesses := [Option.none], activeIndex := 1 },
        hintsGiven := 0,
        guess := [],
        committed := false } := by
  refine ⟨(moveToEndgame_spec (HintingPhase.proposing proposingRoomW)).2.2.2.2.1, ?_⟩
  have h := (moveToEndgame_spec (HintingPhase.proposing proposingRoomW)).2.2.2.2.2.2 0
    ⟨"p1", ⟨['A'], [Option.none], 0⟩, 0⟩ rfl
  simpa using h

/-! ## C10: `performResolveAction` applies any action without legality checks -/

/-- C10: for any resolving-phase room and any `ResolveAction` naming an
in-range player number — with no hypothesis that the player is referenced by
the active hint or has not already responded — the action is appended to
`playerActions` and its flip/guess hand effect is applied; the function is
total, so no error is ever raised. -/
theorem performResolveAction_no_legality_check (room : ResolvingHintPhase) (a : ResolveAction)
    (rA : Letter) (rD : Nat → Letter)
    (h1 : 1 ≤ a.player) (h2 : a.player ≤ room.players.length) :
    ((applyResolution rA (recordResolveAction room a) a).activeHint.playerActions
        = room.activeHint.playerActions ++ [a]) ∧
    (performResolveAction rA rD room a =
      if playersWithOutstandingAction
          (applyResolution rA (recordResolveAction room a) a).activeHint = ∅
      then HintingPhase.proposing
        (fullyResolveHint rD (applyResolution rA (recordResolveAction room a) a))
      else HintingPhase.resolving (applyResolution rA (recordResolveAction room a) a)) ∧
    (∀ n, a = ResolveAction.flip n → ∃ p, room.players.get? (n - 1) = some p ∧
      (applyResolution rA (recordResolveAction room a) a).players.get? (n - 1) = some
        { p with hand :=
            { letters := if (p.hand.activeIndex : Int) = (room.wordLength : Int) - 1
                         then p.hand.letters ++ [rA] else p.hand.letters,
              guesses := p.hand.guesses,
              activeIndex := p.hand.activeIndex + 1 } }) ∧
    (∀ n g act, a = ResolveAction.guess n g act → ∃ p, room.players.get? (n - 1) = some p ∧
      (applyResolution rA (recordResolveAction room a) a).players.get? (n - 1) = some
        { p with hand :=
            { letters := p.hand.letters.take room.wordLength ++ [rA],
              guesses := p.hand.guesses,
              activeIndex := p.hand.activeIndex } } ∧
      (applyResolution rA (recordResolveAction room a) a).bonuses =
        (if g = act then room.bonuses ++ [g] else room.bonuses)) ∧
    (∀ n, a = ResolveAction.none n →
      (applyResolution rA (recordResolveAction room a) a).players = room.players ∧
      (applyResolution rA (recordResolveAction room a) a).bonuses = room.bonuses) := by
  refine ⟨by rw [applyResolution_activeHint]; rfl, rfl, ?_, ?_, ?_⟩
  · rintro n rfl
    simp only [ResolveAction.player] at h1 h2
    obtain ⟨m, rfl⟩ : ∃ m, n = m + 1 := ⟨n - 1, (Nat.succ_pred_eq_of_pos h1).symm⟩
    have hm : m < room.players.length := by omega
    have hp := List.get?_eq_get hm
    refine ⟨room.players.get ⟨m, hm⟩, hp, ?_⟩
    simp only [applyResolution, recordResolveAction, natCast_succ_sub_one, listGetInt?_natCast]
    rw [hp]
    simp only [Nat.add_sub_cancel, mapNth_get?, hp, Option.map_some, natCast_succ_sub_one]
    simp
  · rintro n g act rfl
    simp only [ResolveAction.player] at h1 h2
    obtain ⟨m, rfl⟩ : ∃ m, n = m + 1 := ⟨n - 1, (Nat.succ_pred_eq_of_pos h1).symm⟩
    have hm : m < room.players.length := by omega
    have hp := List.get?_eq_get hm
    refine ⟨room.players.get ⟨m, hm⟩, hp, ?_, ?_⟩
    · simp only [applyResolution, recordResolveAction, natCast_succ_sub_one, listGetInt?_natCast]
      rw [hp]
      simp only [Nat.add_sub_cancel, mapNth_get?, hp, Option.map_some, natCast_succ_sub_one]
      simp
    · simp only [applyResolution, recordResolveAction, natCast_succ_sub_one, listGetInt?_natCast]
      rw [hp]
  · rintro n rfl
    exact ⟨rfl, rfl⟩

/-! ## C2: resolve completion for a hint referencing players 1 and 2 -/

theorem performResolveAction_still_resolving (rA : Letter) (rD : Nat → Letter)
    (room : ResolvingHintPhase) (a : ResolveAction)
    (h : playersWithOutstandingAction ((recordResolveAction room a).activeHint) ≠ ∅) :
    performResolveAction rA rD room a =
      HintingPhase.resolving (applyResolution rA (recordResolveAction room a) a) := by
  simp only [performResolveAction]
  rw [applyResolution_activeHint, if_neg h]

theorem performResolveAction_completes (rA : Letter) (rD : Nat → Letter)
    (room : ResolvingHintPhase) (a : ResolveAction)
    (h : playersWithOutstandingAction ((recordResolveAction room a).activeHint) = ∅) :
    performResolveAction rA rD room a =
      HintingPhase.proposing
        (fullyResolveHint rD (applyResolution rA (recordResolveAction room a) a)) := by
  simp only [performResolveAction]
  rw [applyResolution_activeHint, if_pos h]

/-- Both resolve actions in sequence, for an active hint with no prior
actions: the first leaves the room resolving when someone is still
outstanding, the second completes the hint when nobody is. -/
theorem resolve_two_step (room : ResolvingHintPhase) (b1 b2 : ResolveAction)
    (rA1 rA2 : Letter) (rD1 rD2 : Nat → Letter)
    (h0 : room.activeHint.playerActions = [])
    (hfree : freeHintsGained room.dummies (dummiesUsedOf room.activeHint.hint) = 0)
    (hne : hintReferencedPlayers room.activeHint.hint \ ({b1.player} : Finset Nat) ≠ ∅)
    (hemp : hintReferencedPlayers room.activeHint.hint \
      ({b1.player, b2.player} : Finset Nat) = ∅) :
    ∃ r1, performResolveAction rA1 rD1 room b1 = HintingPhase.resolving r1 ∧
      ∃ p, performResolveAction rA2 rD2 r1 b2 = HintingPhase.proposing p ∧
        p.hintsRemaining = room.hintsRemaining - 1 ∧ p.proposedHints = [] := by
  have hstep1 : playersWithOutstandingAction ((recordResolveAction room b1).activeHint) ≠ ∅ := by
    simpa [playersWithOutstandingAction, recordResolveAction, h0] using hne
  refine ⟨applyResolution rA1 (recordResolveAction room b1) b1,
    performResolveAction_still_resolving rA1 rD1 room b1 hstep1, ?_⟩
  set r1 := applyResolution rA1 (recordResolveAction room b1) b1 with hr1def
  have hr1act : r1.activeHint =
      ⟨room.activeHint.hint, [b1], room.activeHint.activeIndexes⟩ := by
    rw [hr1def, applyResolution_activeHint]
    simp [recordResolveAction, h0]
  have hr1hr : r1.hintsRemaining = room.hintsRemaining := by
    rw [hr1def, applyResolution_hintsRemaining]
    rfl
  have hr1d : r1.dummies = room.dummies := by
    rw [hr1def, applyResolution_dummies]
    rfl
  have hstep2 : playersWithOutstandingAction ((recordResolveAction r1 b2).activeHint) = ∅ := by
    simpa [playersWithOutstandingAction, recordResolveAction, hr1act] using hemp
  refine ⟨fullyResolveHint rD2 (applyResolution rA2 (recordResolveAction r1 b2) b2),
    performResolveAction_completes rA2 rD2 r1 b2 hstep2, ?_, rfl⟩
  set X2 := applyResolution rA2 (recordResolveAction r1 b2) b2 with hX2def
  have hX2hr : X2.hintsRemaining = room.hintsRemaining := by
    rw [hX2def, applyResolution_hintsRemaining]
    show r1.hintsRemaining = _
    exact hr1hr
  have hX2d : X2.dummies = room.dummies := by
    rw [hX2def, applyResolution_dummies]
    show r1.dummies = _
    exact hr1d
  have hX2h : X2.activeHint.hint = room.activeHint.hint := by
    rw [hX2def, applyResolution_activeHint]
    show r1.activeHint.hint = _
    rw [hr1act]
  show X2.hintsRemaining - 1 +
      (freeHintsGained X2.dummies (dummiesUsedOf X2.activeHint.hint) : Int) =
    room.hintsRemaining - 1
  rw [hX2hr, hX2d, hX2h, hfree]
  simp

theorem processDummiesAux_get? (rand : Nat → Letter) (used : Finset Int) :
    ∀ (ds : List Dummy) (s j : Nat),
      (processDummiesAux rand used s ds).get? j =
        (ds.get? j).map (fun d =>
          if ((s + j : Nat) : Int) ∈ used then
            { currentLetter := rand (s + j), untilFreeHint := d.untilFreeHint - 1 }
          else d)
  | [], s, j => by simp [processDummiesAux]
  | d :: ds, s, 0 => by simp [processDummiesAux]
  | d :: ds, s, j + 1 => by
    have ih := processDummiesAux_get? rand used ds (s + 1) j
    simp only [processDummiesAux, List.get?]
    rw [ih, show s + 1 + j = s + (j + 1) by omega]

theorem freeHintsGainedAux_eq_zero (used : Finset Int) :
    ∀ (ds : List Dummy) (s : Nat),
      (∀ j e, ds.get? j = some e → ((s + j : Nat) : Int) ∈ used → e.untilFreeHint ≠ 1) →
      freeHintsGainedAux used s ds = 0
  | [], _, _ => rfl
  | d :: ds, s, h => by
    have htail : ∀ j e, ds.get? j = some e → ((s + 1 + j : Nat) : Int) ∈ used →
        e.untilFreeHint ≠ 1 := by
      intro j e hj hin
      exact h (j + 1) e hj (by rw [show s + (j + 1) = s + 1 + j by omega]; exact hin)
    have hhead : ¬ ((s : Int) ∈ used ∧ d.untilFreeHint = 1) := by
      rintro ⟨hin, h1⟩
      exact h 0 d rfl (by simpa using hin) h1
    simp only [freeHintsGainedAux, if_neg hhead,
      freeHintsGainedAux_eq_zero used ds (s + 1) htail]

theorem freeHintsGainedAux_le_one (used : Finset Int) (k : Nat) :
    ∀ (ds : List Dummy) (s : Nat),
      (∀ j e, ds.get? j = some e → ((s + j : Nat) : Int) ∈ used → e.untilFreeHint = 1 →
        s + j = k) →
      freeHintsGainedAux used s ds ≤ 1
  | [], s, _ => by simp [freeHintsGainedAux]
  | d :: ds, s, h => by
    by_cases hc : (s : Int) ∈ used ∧ d.untilFreeHint = 1
    · have hk : s = k := by simpa using h 0 d rfl (by simpa using hc.1) hc.2
      have htail0 : freeHintsGainedAux used (s + 1) ds = 0 := by
        apply freeHintsGainedAux_eq_zero
        intro j e hj hin h1
        have := h (j + 1) e hj (by rw [show s + (j + 1) = s + 1 + j by omega]; exact hin) h1
        omega
      simp [freeHintsGainedAux, if_pos hc, htail0]
    · have htail : ∀ j e, ds.get? j = some e → ((s + 1 + j : Nat) : Int) ∈ used →
          e.untilFreeHint = 1 → s + 1 + j = k := by
        intro j e hj hin h1
        have := h (j + 1) e hj (by rw [show s + (j + 1) = s + 1 + j by omega]; exact hin) h1
        omega
      simp only [freeHintsGainedAux, if_neg hc]
      simpa using freeHintsGainedAux_le_one used k ds (s + 1) htail

theorem freeHintsGainedAux_pos (used : Finset Int) :
    ∀ (ds : List Dummy) (s j : Nat) (e : Dummy), ds.get? j = some e →
      ((s + j : Nat) : Int) ∈ used → e.untilFreeHint = 1 → 1 ≤ freeHintsGainedAux used s ds
  | [], _, j, _, hj, _, _ => by simp at hj
  | d :: ds, s, 0, e, hj, hin, h1 => by
    obtain rfl : d = e := by simpa using hj
    simp only [freeHintsGainedAux]
    rw [if_pos ⟨by simpa using hin, h1⟩]
    omega
  | d :: ds, s, j + 1, e, hj, hin, h1 => by
    have ih := freeHintsGainedAux_pos used ds (s + 1) j e hj
      (by rw [show s + 1 + j = s + (j + 1) by omega]; exact hin) h1
    simp only [freeHintsGainedAux]
    omega

/-! ## C5: dummy consumption during resolution completion -/

/-- C5: during resolution completion, every dummy consumed by the hint has
its letter replaced by the fresh draw for its index and its countdown
decremented by 1; dummies not consumed are unchanged; and when exactly one
consumed dummy had `untilFreeHint = 1`, the −1 hint cost and the +1 free
hint cancel, leaving `hintsRemaining` unchanged. -/
theorem fullyResolveHint_dummy_consumption (room : ResolvingHintPhase) (rand : Nat → Letter) :
    (∀ i d, room.dummies.get? i = some d → (i : Int) ∈ dummiesUsedOf room.activeHint.hint →
      (fullyResolveHint rand room).dummies.get? i = some
        { currentLetter := rand i, untilFreeHint := d.untilFreeHint - 1 }) ∧
    (∀ i d, room.dummies.get? i = some d → (i : Int) ∉ dummiesUsedOf room.activeHint.hint →
      (fullyResolveHint rand room).dummies.get? i = some d) ∧
    ((∃ i d, room.dummies.get? i = some d ∧ (i : Int) ∈ dummiesUsedOf room.activeHint.hint ∧
        d.untilFreeHint = 1 ∧
        ∀ j e, room.dummies.get? j = some e → (j : Int) ∈ dummiesUsedOf room.activeHint.hint →
          e.untilFreeHint = 1 → j = i) →
      (fullyResolveHint rand room).hintsRemaining = room.hintsRemaining) := by
  refine ⟨?_, ?_, ?_⟩
  · intro i d hd hin
    show (processDummies rand room.dummies _).get? i = _
    rw [processDummies, processDummiesAux_get? rand _ room.dummies 0 i, hd]
    simp [hin]
  · intro i d hd hin
    show (processDummies rand room.dummies _).get? i = _
    rw [processDummies, processDummiesAux_get? rand _ room.dummies 0 i, hd]
    simp [hin]
  · rintro ⟨i, d, hd, hin, h1, huniq⟩
    have hge : 1 ≤ freeHintsGained room.dummies (dummiesUsedOf room.activeHint.hint) :=
      freeHintsGainedAux_pos _ room.dummies 0 i d (by simpa using hd) (by simpa using hin) h1
    have hle : freeHintsGained room.dummies (dummiesUsedOf room.activeHint.hint) ≤ 1 :=
      freeHintsGainedAux_le_one _ i room.dummies 0 (fun j e hj hjin hj1 => by
        have := huniq j e (by simpa using hj) (by simpa using hjin) hj1
        omega)
    have heq : freeHintsGained room.dummies (dummiesUsedOf room.activeHint.hint) = 1 :=
      le_antisymm hle hge
    show room.hintsRemaining - 1 +
        (freeHintsGained room.dummies (dummiesUsedOf room.activeHint.hint) : Int) =
      room.hintsRemaining
    rw [heq]
    simp

/-- Witness for C5: consuming the countdown-1 dummy of a concrete room. -/
theorem fullyResolveHint_dummy_consumption_witness :
    (fullyResolveHint constLetterA resolvingRoomW5).dummies.get? 0 =
      some { currentLetter := constLetterA 0, untilFreeHint := (1 : Int) - 1 } ∧
    (fullyResolveHint constLetterA resolvingRoomW5).dummies.get? 1 = some ⟨'D', 5⟩ ∧
    (fullyResolveHint constLetterA resolvingRoomW5).hintsRemaining =
      resolvingRoomW5.hintsRemaining := by
  have h := fullyResolveHint_dummy_consumption resolvingRoomW5 constLetterA
  refine ⟨h.1 0 ⟨'C', 1⟩ rfl (by decide), h.2.1 1 ⟨'D', 5⟩ rfl (by decide),
    h.2.2 ⟨0, ⟨'C', 1⟩, rfl, by decide, rfl, ?_⟩⟩
  intro j e hj hjin hj1
  match j with
  | 0 => rfl
  | 1 =>
    obtain rfl : (⟨'D', 5⟩ : Dummy) = e := by simpa [resolvingRoomW5] using hj
    simp at hj1
  | (k + 2) => simp [resolvingRoomW5] at hj

/-- C2: in a resolving-phase room whose active hint references exactly
players 1 and 2 via player-sourced letters and has no recorded actions yet,
one player's action leaves the room resolving; once both have acted the room
returns to proposing with an empty proposed-hints map and `hintsRemaining`
lower by exactly 1 (given that no consumed dummy had `untilFreeHint = 1`).
Completion depends only on the set of responders: both orders work. -/
theorem resolve_completion_two_players (room : ResolvingHintPhase) (a1 a2 : ResolveAction)
    (rA1 rA2 rB1 rB2 : Letter) (rD1 rD2 rE1 rE2 : Nat → Letter)
    (hps : hintReferencedPlayers room.activeHint.hint = {1, 2})
    (h0 : room.activeHint.playerActions = [])
    (ha1 : a1.player = 1) (ha2 : a2.player = 2)
    (hfree : freeHintsGained room.dummies (dummiesUsedOf room.activeHint.hint) = 0) :
    (∃ r1, performResolveAction rA1 rD1 room a1 = HintingPhase.resolving r1 ∧
       ∃ p, performResolveAction rA2 rD2 r1 a2 = HintingPhase.proposing p ∧
         p.hintsRemaining = room.hintsRemaining - 1 ∧ p.proposedHints = []) ∧
    (∃ r2, performResolveAction rB2 rE2 room a2 = HintingPhase.resolving r2 ∧
       ∃ q, performResolveAction rB1 rE1 r2 a1 = HintingPhase.proposing q ∧
         q.hintsRemaining = room.hintsRemaining - 1 ∧ q.proposedHints = []) := by
  constructor
  · refine resolve_two_step room a1 a2 rA1 rA2 rD1 rD2 h0 hfree ?_ ?_
    · rw [hps, ha1]
      decide
    · rw [hps, ha1, ha2]
      decide
  · refine resolve_two_step room a2 a1 rB2 rB1 rE2 rE1 h0 hfree ?_ ?_
    · rw [hps, ha2]
      decide
    · rw [hps, ha2, ha1]
      decide

/-- Witness for C2 at a concrete two-player resolving room. -/
theorem resolve_completion_two_players_witness :
    ∃ r1, performResolveAction 'Z' constLetterA resolvingRoomW (ResolveAction.none 1) =
        HintingPhase.resolving r1 ∧
      ∃ p, performResolveAction 'Z' constLetterA r1 (ResolveAction.none 2) =
          HintingPhase.proposing p ∧
        p.hintsRemaining = resolvingRoomW.hintsRemaining - 1 ∧ p.proposedHints = [] :=
  (resolve_completion_two_players resolvingRoomW (ResolveAction.none 1) (ResolveAction.none 2)
    'Z' 'Z' 'Z' 'Z' constLetterA constLetterA constLetterA constLetterA
    (by decide) rfl rfl rfl (by decide)).1

/-! ## C6: `giveHint` with no player-sourced letters auto-resolves -/

/-- A legal hint referencing no players makes `giveHint` run resolution
completion immediately. -/
theorem giveHint_auto (randD : Nat → Letter) (room : ProposingHintPhase) (hint : Hint)
    (hlegal : checkHint room hint.lettersAndSources = Except.ok ())
    (hnp : hintReferencedPlayers hint = ∅) :
    giveHint randD room hint =
      Except.ok (HintingPhase.proposing
        (fullyResolveHint randD (giveHintResolvingRoom room hint))) := by
  have hout : playersWithOutstandingAction (giveHintResolvingRoom room hint).activeHint = ∅ := by
    simp [playersWithOutstandingAction, giveHintResolvingRoom, hnp]
  simp only [giveHint, hlegal]
  rw [if_pos hout]

/-- C6: for a proposing-phase room and a legal hint whose letters cite no
player sources (only dummy, bonus or wildcard), `giveHint` returns a room
already back in the proposing state: the log entry is appended with an empty
`playerActions` list, `hintsRemaining` is decremented (plus any dummy free
hints), consumed dummies and bonuses are processed, and no resolving-state
room is ever returned. -/
theorem giveHint_no_player_sources_auto_resolves (room : ProposingHintPhase)
    (randD : Nat → Letter) (hint : Hint)
    (hnp : ∀ n l, LetterAndSource.player n l ∉ hint.lettersAndSources)
    (hlegal : checkHint room hint.lettersAndSources = Except.ok ()) :
    ∃ p, giveHint randD room hint = Except.ok (HintingPhase.proposing p) ∧
      p.hintLog = room.hintLog ++
        [{ hint := hint,
           totalHints := (room.hintLog.length : Int) + room.hintsRemaining,
           activeIndexes := room.players.map (fun pl => pl.hand.activeIndex),
           playerActions := [] }] ∧
      p.hintsRemaining = room.hintsRemaining - 1 +
        (freeHintsGained room.dummies (dummiesUsedOf hint) : Int) ∧
      p.dummies = processDummies randD room.dummies (dummiesUsedOf hint) ∧
      p.bonuses = processBonuses room.bonuses (bonusesUsedOf room.bonuses hint) ∧
      p.proposedHints = [] := by
  have href : hintReferencedPlayers hint = ∅ := by
    rw [hintReferencedPlayers, List.filterMap_eq_nil.mpr, List.toFinset_nil]
    intro ls hls
    cases ls with
    | player n l => exact absurd hls (hnp n l)
    | wildcard l => rfl
    | dummy n l => rfl
    | bonus l => rfl
  exact ⟨_, giveHint_auto randD room hint hlegal href, rfl, rfl, rfl, rfl, rfl⟩

/-- Witness for C6: a dummy-only hint in a concrete room. -/
theorem giveHint_no_player_sources_witness :
    ∃ p, giveHint constLetterA proposingRoomW ⟨1, [LetterAndSource.dummy 1 'C']⟩ =
        Except.ok (HintingPhase.proposing p) ∧ p.proposedHints = [] := by
  obtain ⟨p, heq, _, _, _, _, hprop⟩ := giveHint_no_player_sources_auto_resolves proposingRoomW
    constLetterA ⟨1, [LetterAndSource.dummy 1 'C']⟩ (by intro n l h; simp at h) rfl
  exact ⟨p, heq, hprop⟩

/-! ## C3 and C4: `startGameRoom` -/

theorem buildPlayers_sound (room : StartingPhase) (f : Nat → List Letter → List Letter) :
    ∀ (l : List StartingPlayer) (s : Nat) (ps : List HintingPlayer),
      buildPlayers room f s l = some ps →
      ps.length = l.length ∧
      ∀ j a, l.get? j = some a → ∃ prevp w,
        room.players.get? ((s + j + room.players.length - 1) % room.players.length) =
          some prevp ∧
        prevp.word = some w ∧
        ps.get? j = some
          { name := a.name,
            hand := { letters := f (s + j) w,
                      guesses := w.map (fun _ => Option.none),
                      activeIndex := 0 },
            hintsGiven := 0 }
  | [], s, ps, h => by
    obtain rfl : ps = [] := by simpa [buildPlayers] using h.symm
    exact ⟨rfl, fun j a hj => by simp at hj⟩
  | x :: xs, s, ps, h => by
    simp only [buildPlayers] at h
    obtain ⟨w, hw, hmap⟩ := Option.bind_eq_some.mp h
    obtain ⟨others, hothers, hcons⟩ := Option.map_eq_some'.mp hmap
    subst hcons
    obtain ⟨prevp, hprevp, hword⟩ := Option.bind_eq_some.mp hw
    have ih := buildPlayers_sound room f xs (s + 1) others hothers
    refine ⟨by simp [ih.1], ?_⟩
    intro j a hj
    match j with
    | 0 =>
      obtain rfl : x = a := by simpa using hj
      refine ⟨prevp, w, ?_, hword, ?_⟩
      · rw [show s + 0 = s by omega]
        exact hprevp
      · rw [show s + 0 = s by omega]
        rfl
    | j' + 1 =>
      obtain ⟨prevp', w', h1, h2, h3⟩ := ih.2 j' a hj
      refine ⟨prevp', w', ?_, h2, ?_⟩
      · rw [show s + (j' + 1) = s + 1 + j' by omega]
        exact h1
      · rw [show s + (j' + 1) = s + 1 + j' by omega]
        exact h3

theorem buildPlayers_total (room : StartingPhase) (f : Nat → List Letter → List Letter)
    (hw : ∀ a ∈ room.players, a.word.isSome) (hpos : 0 < room.players.length) :
    ∀ (l : List StartingPlayer) (s : Nat), ∃ ps, buildPlayers room f s l = some ps
  | [], _ => ⟨[], rfl⟩
  | x :: xs, s => by
    have hidx : (s + room.players.length - 1) % room.players.length < room.players.length :=
      Nat.mod_lt _ hpos
    have hget := List.get?_eq_get hidx
    have hmem : room.players.get ⟨_, hidx⟩ ∈ room.players := List.get_mem _ _ _
    obtain ⟨w, hw'⟩ := Option.isSome_iff_exists.mp (hw _ hmem)
    obtain ⟨ps, hps⟩ := buildPlayers_total room f hw hpos xs (s + 1)
    refine ⟨{ name := x.name,
              hand := { letters := f s w,
                        guesses := w.map (fun _ => Option.none),
                        activeIndex := 0 },
              hintsGiven := 0 } :: ps, ?_⟩
    simp only [List.get_eq_getElem] at hw'
    simp only [buildPlayers]
    rw [hget]
    simp [hw', hps]

theorem dummyLettersForFreeHint_isSome (n : Nat) (h2 : 2 ≤ n) (h6 : n ≤ 6) :
    (dummyLettersForFreeHint n).isSome := by
  interval_cases n <;> rfl

theorem mkDummiesAux_map_untilFreeHint (rand : Nat → Letter) :
    ∀ (cds : List Int) (s : Nat), (mkDummiesAux rand s cds).map Dummy.untilFreeHint = cds
  | [], _ => rfl
  | u :: us, s => by
    simp [mkDummiesAux, mkDummiesAux_map_untilFreeHint rand us (s + 1)]

theorem map_fun_const_none (w : List Letter) :
    w.map (fun _ => (Option.none : Option Letter)) = List.replicate w.length Option.none := by
  induction w with
  | nil => rfl
  | cons x xs ih => simp [List.replicate, ih]

theorem isRoomReady_facts (room : StartingPhase) (hready : isRoomReady room = true) :
    (∀ a ∈ room.players, a.word.isSome) ∧ 2 ≤ room.players.length ∧
      room.players.length ≤ 6 := by
  simp only [isRoomReady, Bool.and_eq_true, List.all_eq_true, decide_eq_true_eq,
    MIN_PLAYERS, MAX_PLAYERS] at hready
  exact ⟨hready.1.1, hready.1.2, hready.2⟩

/-- For a ready room, `startGameRoom` succeeds and its result is the
proposing-phase room assembled from `buildPlayers` and the dummy schedule. -/
theorem startGameRoom_eq (shuffleFn : Nat → List Letter → List Letter)
    (dummyRand : Nat → Letter) (room : StartingPhase) (hready : isRoomReady room = true) :
    ∃ ps cds, buildPlayers room shuffleFn 0 room.players = some ps ∧
      dummyLettersForFreeHint room.players.length = some cds ∧
      startGameRoom shuffleFn dummyRand room = some (HintingPhase.proposing
        { wordLength := room.wordLength,
          players := ps,
          dummies := mkDummiesAux dummyRand 0 cds,
          bonuses := [],
          hintsRemaining := STARTING_HINTS,
          hintLog := [],
          proposedHints := [] }) := by
  obtain ⟨hwords, h2, h6⟩ := isRoomReady_facts room hready
  obtain ⟨ps, hps⟩ := buildPlayers_total room shuffleFn hwords (by omega) room.players 0
  obtain ⟨cds, hcds⟩ :=
    Option.isSome_iff_exists.mp (dummyLettersForFreeHint_isSome room.players.length h2 h6)
  refine ⟨ps, cds, hps, hcds, ?_⟩
  simp only [startGameRoom, hps, hcds]

/-- C3 (amended): `startGameRoom` builds the dummy list from the fixed
lookup table keyed by player count (2..6), one dummy per configured
countdown slot; a 4-player room gets 2 dummies with countdowns [7, 8] and a
2-player room gets 4 dummies with countdowns [7, 8, 9, 10]. -/
theorem dummy_schedule (room : StartingPhase) (shuffleFn : Nat → List Letter → List Letter)
    (dummyRand : Nat → Letter) (hready : isRoomReady room = true) :
    ∃ cds hp, dummyLettersForFreeHint room.players.length = some cds ∧
      startGameRoom shuffleFn dummyRand room = some (HintingPhase.proposing hp) ∧
      hp.dummies.map Dummy.untilFreeHint = cds ∧
      hp.dummies.length = cds.length ∧
      dummyLettersForFreeHint 2 = some [7, 8, 9, 10] ∧
      dummyLettersForFreeHint 4 = some [7, 8] := by
  obtain ⟨ps, cds, _, hcds, heq⟩ := startGameRoom_eq shuffleFn dummyRand room hready
  refine ⟨cds, _, hcds, heq, mkDummiesAux_map_untilFreeHint dummyRand cds 0, ?_, rfl, rfl⟩
  have := mkDummiesAux_map_untilFreeHint dummyRand cds 0
  calc (mkDummiesAux dummyRand 0 cds).length
      = ((mkDummiesAux dummyRand 0 cds).map Dummy.untilFreeHint).length := by simp
    _ = cds.length := by rw [this]

/-- Counterexample for C3 as frozen: a 4-player room gets dummies with
countdowns [7, 8] (two dummies), not a single dummy with countdown 8. -/
theorem dummy_schedule_counterexample :
    dummyCountdowns (startGameRoom idShuffle constLetterA fourPlayerStart) = some [7, 8] ∧
    dummyCountdowns (startGameRoom idShuffle constLetterA fourPlayerStart) ≠ some [8] := by
  constructor
  · rfl
  · decide

/-- Witness for C3's amended theorem at the concrete 4-player room. -/
theorem dummy_schedule_witness :
    ∃ cds hp, dummyLettersForFreeHint fourPlayerStart.players.length = some cds ∧
      startGameRoom idShuffle constLetterA fourPlayerStart =
        some (HintingPhase.proposing hp) ∧
      hp.dummies.map Dummy.untilFreeHint = cds := by
  obtain ⟨cds, hp, h1, h2, h3, _⟩ :=
    dummy_schedule fourPlayerStart idShuffle constLetterA (by decide)
  exact ⟨cds, hp, h1, h2, h3⟩

/-- C4 (amended): for a ready starting room (all words set, 2–6 players)
whose words all have `wordLength` letters, `startGameRoom` produces a
hinting room in the proposing state where each player's hand holds a
permutation of the previous player's word (circularly), `guesses` is
`wordLength` nulls, `activeIndex = 0`, `hintsGiven = 0`, the bonus list is
empty, `hintsRemaining = 11`, the hint log is empty and no hints are
proposed. -/
theorem startGameRoom_ready_spec (room : StartingPhase)
    (shuffleFn : Nat → List Letter → List Letter) (dummyRand : Nat → Letter)
    (hready : isRoomReady room = true)
    (hperm : ∀ i w, (shuffleFn i w).Perm w)
    (hwl : ∀ p ∈ room.players, ∀ w, p.word = some w → w.length = room.wordLength) :
    ∃ hp, startGameRoom shuffleFn dummyRand room = some (HintingPhase.proposing hp) ∧
      hp.wordLength = room.wordLength ∧
      hp.players.length = room.players.length ∧
      (∀ i sp, room.players.get? i = some sp → ∃ prevp w,
        room.players.get? ((i + room.players.length - 1) % room.players.length) =
          some prevp ∧
        prevp.word = some w ∧
        ∃ pl, hp.players.get? i = some pl ∧
          pl.name = sp.name ∧
          pl.hand.letters.Perm w ∧
          pl.hand.guesses = List.replicate room.wordLength Option.none ∧
          pl.hand.activeIndex = 0 ∧
          pl.hintsGiven = 0) ∧
      hp.bonuses = [] ∧
      hp.hintsRemaining = 11 ∧
      hp.hintLog = [] ∧
      hp.proposedHints = [] := by
  obtain ⟨ps, cds, hps, hcds, heq⟩ := startGameRoom_eq shuffleFn dummyRand room hready
  have hsound := buildPlayers_sound room shuffleFn room.players 0 ps hps
  refine ⟨_, heq, rfl, hsound.1, ?_, rfl, rfl, rfl, rfl⟩
  intro i sp hsp
  obtain ⟨prevp, w, h1, h2, h3⟩ := hsound.2 i sp hsp
  rw [show 0 + i = i by omega] at h1 h3
  have hprev_mem : prevp ∈ room.players := List.get?_mem h1
  have hwlen : w.length = room.wordLength := hwl prevp hprev_mem w h2
  refine ⟨prevp, w, h1, h2, _, h3, rfl, hperm i w, ?_, rfl, rfl⟩
  show w.map (fun _ => Option.none) = _
  rw [map_fun_const_none, hwlen]

/-- Counterexample for C4 as frozen: a 1-player room in which the single
player's word is non-null still fails `startGameRoom` (wrong number of
players), so the claim's precondition is not sufficient. -/
theorem startGameRoom_one_player_counterexample :
    startGameRoom idShuffle constLetterA onePlayerStart = Option.none := by
  rfl

/-- Witness for C4's amended theorem at the concrete 4-player room. -/
theorem startGameRoom_ready_spec_witness :
    ∃ hp, startGameRoom idShuffle constLetterA fourPlayerStart =
        some (HintingPhase.proposing hp) ∧ hp.hintsRemaining = 11 := by
  have hwl : ∀ p ∈ fourPlayerStart.players, ∀ w, p.word = some w →
      w.length = fourPlayerStart.wordLength := by
    intro p hp' w hw
    simp only [fourPlayerStart, List.mem_cons, List.not_mem_nil, or_false] at hp'
    rcases hp' with rfl | rfl | rfl | rfl <;> (injection hw with hw'; subst hw'; rfl)
  obtain ⟨hp, heq, _, _, _, _, hr, _, _⟩ := startGameRoom_ready_spec fourPlayerStart
    idShuffle constLetterA (by decide) (fun i w => List.Perm.refl w) hwl
  exact ⟨hp, heq, hr⟩

/-! ## C7: endgame wildcard exclusivity -/

theorem wildcardCount_pos (g : List EndgameLetterChoice) (h : hasWildcard g = true) :
    1 ≤ wildcardCount g := by
  simp only [hasWildcard, List.any_eq_true] at h
  obtain ⟨c, hc, hw⟩ := h
  simp only [wildcardCount]
  exact List.countP_pos.mpr ⟨c, hc, hw⟩

theorem claimWildBonus_wcount :
    ∀ (g : List EndgameLetterChoice) (avail : Bool) (bonuses : List Letter)
      (a2 : Bool) (b2 : List Letter),
      claimWildBonus g avail bonuses = some (a2, b2) →
      wildcardCount g + (if a2 then 1 else 0) = (if avail then 1 else 0)
  | [], avail, bonuses, a2, b2, h => by
    obtain ⟨rfl, rfl⟩ : avail = a2 ∧ bonuses = b2 := by
      simpa [claimWildBonus, Prod.ext_iff] using h
    simp [wildcardCount]
  | c :: rest, avail, bonuses, a2, b2, h => by
    cases c with
    | wildcard l =>
      cases avail with
      | false => simp [claimWildBonus] at h
      | true =>
        simp only [claimWildBonus, if_pos] at h
        have ih := claimWildBonus_wcount rest false bonuses a2 b2 h
        simp only [wildcardCount, List.countP_cons] at ih ⊢
        cases a2 <;> simp_all
    | bonus l =>
      simp only [claimWildBonus] at h
      by_cases hix : findIndexAux (fun b => b == l) bonuses < 0
      · rw [if_pos hix] at h
        simp at h
      · rw [if_neg hix] at h
        have ih := claimWildBonus_wcount rest avail _ a2 b2 h
        simp only [wildcardCount, List.countP_cons] at ih ⊢
        cases a2 <;> cases avail <;> simp_all
    | player i =>
      have ih := claimWildBonus_wcount rest avail bonuses a2 b2 h
      simp only [wildcardCount, List.countP_cons] at ih ⊢
      cases a2 <;> cases avail <;> simp_all

theorem scanPlayers_wcount :
    ∀ (ps : List EndgamePlayer) (avail : Bool) (bonuses : List Letter)
      (a2 : Bool) (b2 : List Letter),
      scanPlayers ps avail bonuses = some (a2, b2) →
      (ps.map (fun p => wildcardCount p.guess)).sum + (if a2 then 1 else 0) =
        (if avail then 1 else 0)
  | [], avail, bonuses, a2, b2, h => by
    obtain ⟨rfl, rfl⟩ : avail = a2 ∧ bonuses = b2 := by
      simpa [scanPlayers, Prod.ext_iff] using h
    simp
  | p :: rest, avail, bonuses, a2, b2, h => by
    simp only [scanPlayers] at h
    cases hc : claimWildBonus p.guess avail bonuses with
    | none => rw [hc] at h; simp at h
    | some ab =>
      rw [hc] at h
      obtain ⟨a1, b1⟩ := ab
      have h1 := claimWildBonus_wcount p.guess avail bonuses a1 b1 hc
      have h2 := scanPlayers_wcount rest a1 b1 a2 b2 h
      simp only [List.map_cons, List.sum_cons]
      cases a1 <;> cases a2 <;> cases avail <;> simp_all

theorem sum_two_get? {α : Type} (f : α → Nat) :
    ∀ (l : List α) (i j : Nat) (a b : α), i ≠ j → l.get? i = some a → l.get? j = some b →
      f a + f b ≤ (l.map f).sum
  | [], i, j, a, b, _, ha, _ => by simp at ha
  | x :: xs, 0, 0, a, b, hij, _, _ => absurd rfl hij
  | x :: xs, 0, j + 1, a, b, _, ha, hb => by
    obtain rfl : x = a := by simpa using ha
    have hmem : b ∈ xs := List.get?_mem hb
    have hle : f b ≤ (xs.map f).sum :=
      List.single_le_sum (by simp) _ (List.mem_map_of_mem f hmem)
    simp only [List.map_cons, List.sum_cons]
    omega
  | x :: xs, i + 1, 0, a, b, _, ha, hb => by
    obtain rfl : x = b := by simpa using hb
    have hmem : a ∈ xs := List.get?_mem ha
    have hle : f a ≤ (xs.map f).sum :=
      List.single_le_sum (by simp) _ (List.mem_map_of_mem f hmem)
    simp only [List.map_cons, List.sum_cons]
    omega
  | x :: xs, i + 1, j + 1, a, b, hij, ha, hb => by
    have ih := sum_two_get? f xs i j a b (by omega) ha hb
    simp only [List.map_cons, List.sum_cons]
    omega

/-- C7: at most one endgame guess may use the wildcard.  If some other
player's installed guess contains a wildcard choice, `setFinalGuess` for a
player whose candidate guess also contains one returns the rejected sentinel
(leaving the input room — and hence the first player's installed guess —
untouched); and whenever `setFinalGuess` succeeds, the returned room equals
the input room except for the given player's `guess` field. -/
theorem setFinalGuess_wildcard_exclusive (room : EndgamePhase) (p q : Nat)
    (g : List EndgameLetterChoice)
    (hp1 : 1 ≤ p) (hq1 : 1 ≤ q) (hpq : p ≠ q) (hq2 : q ≤ room.players.length) :
    ((∃ ppl, room.players.get? (p - 1) = some ppl ∧ hasWildcard ppl.guess = true ∧
        hasWildcard g = true) → setFinalGuess room q g = Option.none) ∧
    (∀ r, setFinalGuess room q g = some r →
      r.wordLength = room.wordLength ∧ r.dummies = room.dummies ∧
      r.bonuses = room.bonuses ∧ r.hintsRemaining = room.hintsRemaining ∧
      r.hintLog = room.hintLog ∧
      (∀ j, j ≠ q - 1 → r.players.get? j = room.players.get? j) ∧
      (∃ qpl, room.players.get? (q - 1) = some qpl ∧
        r.players.get? (q - 1) = some { qpl with guess := g })) := by
  have hq2' : q - 1 < room.players.length := by omega
  have hqget := List.get?_eq_get hq2'
  set qpl := room.players.get ⟨q - 1, hq2'⟩ with hqpl
  have hcast : ((q - 1 : Nat) : Int) = (q : Int) - 1 := by omega
  have hnewq : (withFinalGuess room q g).players.get? (q - 1) =
      some { qpl with guess := g } := by
    show (mapNth room.players ((q : Int) - 1) _).get? (q - 1) = _
    rw [mapNth_get?, hqget]
    simp [hcast]
  constructor
  · rintro ⟨ppl, hpget, hpw, hgw⟩
    have hpq' : p - 1 ≠ q - 1 := by omega
    have hcastp : ¬ (((p - 1 : Nat) : Int) = (q : Int) - 1) := by omega
    have hnewp : (withFinalGuess room q g).players.get? (p - 1) = some ppl := by
      show (mapNth room.players ((q : Int) - 1) _).get? (p - 1) = _
      rw [mapNth_get?, hpget]
      simp [hcastp]
    have hsum : 2 ≤ ((withFinalGuess room q g).players.map
        (fun pl => wildcardCount pl.guess)).sum := by
      have h2 := sum_two_get? (fun pl => wildcardCount pl.guess)
        (withFinalGuess room q g).players (p - 1) (q - 1) _ _ hpq' hnewp hnewq
      have hp_pos := wildcardCount_pos ppl.guess hpw
      have hq_pos : 1 ≤ wildcardCount g := wildcardCount_pos g hgw
      simp only at h2
      omega
    have hscan : scanPlayers (withFinalGuess room q g).players true
        (withFinalGuess room q g).bonuses = Option.none := by
      cases hs : scanPlayers (withFinalGuess room q g).players true
          (withFinalGuess room q g).bonuses with
      | none => rfl
      | some ab =>
        obtain ⟨a2, b2⟩ := ab
        have hw := scanPlayers_wcount _ true _ a2 b2 hs
        cases a2 <;> simp at hw <;> omega
    have havail : availableLetters (withFinalGuess room q g) q = Option.none := by
      simp only [availableLetters, Option.bind_eq_bind]
      cases h1 : listGetInt? (withFinalGuess room q g).players ((q : Int) - 1) with
      | none => rfl
      | some pl =>
        cases h2 : collectOwnIndexes pl.guess ∅ with
        | none => simp [Option.bind, h2]
        | some used => simp [Option.bind, h2, hscan]
    simp only [setFinalGuess, havail]
  · intro r hr
    simp only [setFinalGuess] at hr
    cases ha : availableLetters (withFinalGuess room q g) q with
    | none => rw [ha] at hr; simp at hr
    | some av =>
      rw [ha] at hr
      obtain rfl : withFinalGuess room q g = r := Option.some.inj hr
      refine ⟨rfl, rfl, rfl, rfl, rfl, ?_, qpl, hqget, hnewq⟩
      intro j hj
      show (mapNth room.players ((q : Int) - 1) _).get? j = _
      rw [mapNth_get?]
      have hcj : ¬ ((j : Int) = (q : Int) - 1) := by omega
      cases hg : room.players.get? j with
      | none => rfl
      | some y => simp [hcj]

/-- Witness for C7: with player 1's wildcard guess installed, player 2's
wildcard guess is rejected, while a plain hand-index guess succeeds and only
changes player 2's guess. -/
theorem setFinalGuess_wildcard_exclusive_witness :
    setFinalGuess endgameRoomW 2 [EndgameLetterChoice.wildcard '*'] = Option.none ∧
    ∃ r, setFinalGuess endgameRoomW 2 [EndgameLetterChoice.player 0] = some r ∧
      r.bonuses = endgameRoomW.bonuses ∧
      r.players.get? 0 = endgameRoomW.players.get? 0 := by
  constructor
  · exact (setFinalGuess_wildcard_exclusive endgameRoomW 1 2
      [EndgameLetterChoice.wildcard '*'] (by decide) (by decide) (by decide) (by decide)).1
      ⟨⟨"p1", ⟨['A'], [Option.none], 1⟩, 0, [.wildcard '*'], false⟩, rfl, rfl, rfl⟩
  · refine ⟨_, rfl, ?_, ?_⟩
    · exact (((setFinalGuess_wildcard_exclusive endgameRoomW 1 2
        [EndgameLetterChoice.player 0] (by decide) (by decide) (by decide) (by decide)).2
        _ rfl).2.2.1)
    · exact (((setFinalGuess_wildcard_exclusive endgameRoomW 1 2
        [EndgameLetterChoice.player 0] (by decide) (by decide) (by decide) (by decide)).2
        _ rfl).2.2.2.2.2.1) 0 (by decide)


/-! ## C9: duplicate bonus citations collapse to one removal -/

theorem bonusIndex_spec (L : Letter) :
    ∀ (b : List Letter), L ∈ b → ∃ i : Nat, bonusIndex b L = (i : Int) ∧ b.get? i = some L
  | [], h => absurd h (List.not_mem_nil L)
  | x :: xs, h => by
    by_cases hx : x = L
    · subst hx
      exact ⟨0, by simp [bonusIndex, findIndexAux], rfl⟩
    · have hmem : L ∈ xs := by
        rcases List.mem_cons.mp h with h1 | h1
        · exact absurd h1.symm hx
        · exact h1
      obtain ⟨i, h1, h2⟩ := bonusIndex_spec L xs hmem
      have hxL : (x == L) = false := beq_eq_false_iff_ne.mpr hx
      refine ⟨i + 1, ?_, h2⟩
      simp only [bonusIndex, findIndexAux, hxL, Bool.false_eq_true, if_false]
      simp only [bonusIndex] at h1
      rw [h1, if_neg (by omega)]
      push_cast
      ring

theorem bonusIndex_of_not_mem (L : Letter) :
    ∀ (b : List Letter), L ∉ b → bonusIndex b L = -1
  | [], _ => rfl
  | x :: xs, h => by
    have hx : ¬ x = L := fun hx => h (by rw [hx]; exact List.mem_cons_self L xs)
    have hxs : L ∉ xs := fun hmem => h (List.mem_cons_of_mem x hmem)
    have hxL : (x == L) = false := beq_eq_false_iff_ne.mpr hx
    have ih := bonusIndex_of_not_mem L xs hxs
    simp only [bonusIndex, findIndexAux, hxL, Bool.false_eq_true, if_false]
    simp only [bonusIndex] at ih
    rw [ih]
    norm_num

theorem mem_bonusesUsedOf (b : List Letter) (hint : Hint) (z : Int) :
    z ∈ bonusesUsedOf b hint ↔
      ∃ M, LetterAndSource.bonus M ∈ hint.lettersAndSources ∧ z = bonusIndex b M := by
  rw [bonusesUsedOf, List.mem_toFinset, List.mem_filterMap]
  constructor
  · rintro ⟨ls, hls, heq⟩
    cases ls with
    | bonus M =>
      have h' : bonusIndex b M = z := by simpa using heq
      exact ⟨M, hls, h'.symm⟩
    | player n l => simp at heq
    | dummy n l => simp at heq
    | wildcard l => simp at heq
  · rintro ⟨M, hM, rfl⟩
    exact ⟨LetterAndSource.bonus M, hM, rfl⟩

theorem procBonusesAux_count (used : Finset Int) (L : Letter) :
    ∀ (b : List Letter) (s : Nat),
      (processBonusesAux used s b).count L + removedCountAux used L s b = b.count L
  | [], _ => by simp [processBonusesAux, removedCountAux]
  | x :: xs, s => by
    have ih := procBonusesAux_count used L xs (s + 1)
    have hrem : removedCountAux used L s (x :: xs) =
        (if x = L ∧ (s : Int) ∈ used then 1 else 0) + removedCountAux used L (s + 1) xs := rfl
    have hcnt : (x :: xs).count L = xs.count L + (if x = L then 1 else 0) := by
      rw [List.count_cons]
      by_cases hx : x = L <;> simp [hx]
    by_cases hin : (s : Int) ∈ used
    · have hproc : processBonusesAux used s (x :: xs) = processBonusesAux used (s + 1) xs := by
        simp [processBonusesAux, hin]
      rw [hproc, hrem, hcnt]
      by_cases hx : x = L <;> simp [hx, hin] <;> omega
    · have hproc : processBonusesAux used s (x :: xs) =
          x :: processBonusesAux used (s + 1) xs := by
        simp [processBonusesAux, hin]
      have hcnt2 : (x :: processBonusesAux used (s + 1) xs).count L =
          (processBonusesAux used (s + 1) xs).count L + (if x = L then 1 else 0) := by
        rw [List.count_cons]
        by_cases hx : x = L <;> simp [hx]
      rw [hproc, hcnt2, hrem, hcnt]
      by_cases hx : x = L <;> simp [hx, hin] <;> omega

theorem removedCountAux_eq_zero (used : Finset Int) (L : Letter) :
    ∀ (b : List Letter) (s : Nat),
      (∀ j x, b.get? j = some x → x = L → ((s + j : Nat) : Int) ∈ used → False) →
      removedCountAux used L s b = 0
  | [], _, _ => rfl
  | x :: xs, s, h => by
    have htail : ∀ j y, xs.get? j = some y → y = L → ((s + 1 + j : Nat) : Int) ∈ used →
        False := by
      intro j y hj hy hin
      exact h (j + 1) y hj hy (by rw [show s + (j + 1) = s + 1 + j by omega]; exact hin)
    have hhead : ¬ (x = L ∧ (s : Int) ∈ used) := by
      rintro ⟨hx, hin⟩
      exact h 0 x rfl hx (by simpa using hin)
    show (if x = L ∧ (s : Int) ∈ used then 1 else 0) + removedCountAux used L (s + 1) xs = 0
    rw [if_neg hhead, removedCountAux_eq_zero used L xs (s + 1) htail]

theorem removedCountAux_le_one (used : Finset Int) (L : Letter) (k : Nat) :
    ∀ (b : List Letter) (s : Nat),
      (∀ j x, b.get? j = some x → x = L → ((s + j : Nat) : Int) ∈ used → s + j = k) →
      removedCountAux used L s b ≤ 1
  | [], _, _ => by simp [removedCountAux]
  | x :: xs, s, h => by
    by_cases hc : x = L ∧ (s : Int) ∈ used
    · have hk : s = k := by simpa using h 0 x rfl hc.1 (by simpa using hc.2)
      have htail0 : removedCountAux used L (s + 1) xs = 0 := by
        apply removedCountAux_eq_zero
        intro j y hj hy hin
        have := h (j + 1) y hj hy (by rw [show s + (j + 1) = s + 1 + j by omega]; exact hin)
        omega
      show (if x = L ∧ (s : Int) ∈ used then 1 else 0) + removedCountAux used L (s + 1) xs ≤ 1
      rw [if_pos hc, htail0]
    · have htail : ∀ j y, xs.get? j = some y → y = L → ((s + 1 + j : Nat) : Int) ∈ used →
          s + 1 + j = k := by
        intro j y hj hy hin
        have := h (j + 1) y hj hy (by rw [show s + (j + 1) = s + 1 + j by omega]; exact hin)
        omega
      show (if x = L ∧ (s : Int) ∈ used then 1 else 0) + removedCountAux used L (s + 1) xs ≤ 1
      rw [if_neg hc]
      simpa using removedCountAux_le_one used L k xs (s + 1) htail

theorem removedCountAux_pos (used : Finset Int) (L : Letter) :
    ∀ (b : List Letter) (s j : Nat), b.get? j = some L → ((s + j : Nat) : Int) ∈ used →
      1 ≤ removedCountAux used L s b
  | [], _, j, hj, _ => by simp at hj
  | x :: xs, s, 0, hj, hin => by
    obtain rfl : x = L := by simpa using hj
    show 1 ≤ (if x = x ∧ (s : Int) ∈ used then 1 else 0) + removedCountAux used x (s + 1) xs
    rw [if_pos ⟨rfl, by simpa using hin⟩]
    omega
  | x :: xs, s, j + 1, hj, hin => by
    have ih := removedCountAux_pos used L xs (s + 1) j hj
      (by rw [show s + 1 + j = s + (j + 1) by omega]; exact hin)
    show 1 ≤ (if x = L ∧ (s : Int) ∈ used then 1 else 0) + removedCountAux used L (s + 1) xs
    omega

/-- The consumed-index set drops exactly one position of `L` when the hint
cites `Bonus L` and `L` is in the pool, and none otherwise. -/
theorem removedCount_bonusesUsedOf (b : List Letter) (hint : Hint) (L : Letter) :
    removedCountAux (bonusesUsedOf b hint) L 0 b =
      if LetterAndSource.bonus L ∈ hint.lettersAndSources ∧ L ∈ b then 1 else 0 := by
  by_cases hc : LetterAndSource.bonus L ∈ hint.lettersAndSources ∧ L ∈ b
  · rw [if_pos hc]
    obtain ⟨hcit, hmem⟩ := hc
    obtain ⟨i, hbi, hget⟩ := bonusIndex_spec L b hmem
    have hiu : ((0 + i : Nat) : Int) ∈ bonusesUsedOf b hint := by
      rw [mem_bonusesUsedOf]
      refine ⟨L, hcit, ?_⟩
      rw [hbi]
      simp
    have hge := removedCountAux_pos (bonusesUsedOf b hint) L b 0 i (by simpa using hget) hiu
    have hle : removedCountAux (bonusesUsedOf b hint) L 0 b ≤ 1 := by
      apply removedCountAux_le_one (bonusesUsedOf b hint) L i
      intro j x hj hxL hju
      rw [mem_bonusesUsedOf] at hju
      obtain ⟨M, hMc, hMi⟩ := hju
      by_cases hM : M ∈ b
      · obtain ⟨iM, hbiM, hgetM⟩ := bonusIndex_spec M b hM
        rw [hbiM] at hMi
        have hj_iM : j = iM := by omega
        have hgj : b.get? j = some M := by
          rw [hj_iM]
          exact hgetM
        have hxM : x = M := by
          rw [hj] at hgj
          exact Option.some.inj hgj
        have hML : M = L := by
          rw [← hxM, hxL]
        have hcast : (iM : Int) = (i : Int) := by
          rw [← hbiM, hML, hbi]
        omega
      · rw [bonusIndex_of_not_mem M b hM] at hMi
        omega
    omega
  · rw [if_neg hc]
    apply removedCountAux_eq_zero
    intro j x hj hxL hju
    rw [mem_bonusesUsedOf] at hju
    obtain ⟨M, hMc, hMi⟩ := hju
    by_cases hM : M ∈ b
    · obtain ⟨iM, hbiM, hgetM⟩ := bonusIndex_spec M b hM
      rw [hbiM] at hMi
      have hj_iM : j = iM := by omega
      have hgj : b.get? j = some M := by
        rw [hj_iM]
        exact hgetM
      have hxM : x = M := by
        rw [hj] at hgj
        exact Option.some.inj hgj
      refine hc ⟨?_, ?_⟩
      · rw [← hxL, hxM]
        exact hMc
      · have hxb : x ∈ b := List.get?_mem hj
        rwa [hxL] at hxb
    · rw [bonusIndex_of_not_mem M b hM] at hMi
      omega

/-- Exact bonus-count law of the resolution-completion filter: one copy of a
letter leaves the pool iff the hint cites it as a bonus and it is present,
regardless of how many times it is cited. -/
theorem processBonuses_count (b : List Letter) (hint : Hint) (L : Letter) :
    (processBonuses b (bonusesUsedOf b hint)).count L +
        (if LetterAndSource.bonus L ∈ hint.lettersAndSources ∧ L ∈ b then 1 else 0) =
      b.count L := by
  rw [← removedCount_bonusesUsedOf b hint L]
  exact procBonusesAux_count (bonusesUsedOf b hint) L b 0

theorem checkHint_ok_iff (room : ProposingHintPhase) :
    ∀ (l : List LetterAndSource),
      checkHint room l = Except.ok () ↔
        ∀ ls ∈ l, checkLetterAndSource room ls = Except.ok ()
  | [] => by simp [checkHint]
  | x :: xs => by
    rcases checkLetterAndSource_ok_or room x with hok | herr
    · constructor
      · intro h ls hls
        rcases List.mem_cons.mp hls with rfl | hls'
        · exact hok
        · refine ((checkHint_ok_iff room xs).mp ?_) ls hls'
          simpa [checkHint, hok] using h
      · intro h
        simp only [checkHint, hok]
        exact (checkHint_ok_iff room xs).mpr (fun ls hls => h ls (List.mem_cons_of_mem x hls))
    · constructor
      · intro h
        exfalso
        simp [checkHint, herr] at h
      · intro h
        have hx := h x (List.mem_cons_self x xs)
        rw [hx] at herr
        exact absurd herr (by simp)

/-- C9: consumed bonus positions are collected as a set of first-matching
indexes, so for every hint reaching resolution completion — via `giveHint`'s
immediate auto-resolution or via a completing `performResolveAction` — and
every letter, duplicate citations collapse to a single removal: exactly one
copy of the letter leaves the bonus pool when the hint cites it and it is
present, none otherwise, and never more than one.  Correspondingly,
`giveHint`'s legality check tests a cited bonus letter only for membership
(and the whole check only per-letter availability), so a hint citing
`Bonus L` twice passes even when the pool holds a single copy of `L`. -/
theorem bonus_duplicate_citation (room : ResolvingHintPhase) (rand : Nat → Letter)
    (L : Letter) :
    ((fullyResolveHint rand room).bonuses.count L +
        (if LetterAndSource.bonus L ∈ room.activeHint.hint.lettersAndSources ∧
            L ∈ room.bonuses then 1 else 0) =
      room.bonuses.count L) ∧
    (room.bonuses.count L ≤ (fullyResolveHint rand room).bonuses.count L + 1) ∧
    (∀ (rroom : ResolvingHintPhase) (a : ResolveAction) (rA : Letter)
        (p : ProposingHintPhase),
      performResolveAction rA rand rroom a = HintingPhase.proposing p →
      p.bonuses.count L +
          (if LetterAndSource.bonus L ∈ rroom.activeHint.hint.lettersAndSources ∧
              L ∈ (applyResolution rA (recordResolveAction rroom a) a).bonuses
           then 1 else 0) =
        (applyResolution rA (recordResolveAction rroom a) a).bonuses.count L) ∧
    (∀ (proom : ProposingHintPhase) (l : Letter),
      checkLetterAndSource proom (LetterAndSource.bonus l) = Except.ok () ↔
        l ∈ proom.bonuses) ∧
    (∀ (proom : ProposingHintPhase) (hint : Hint),
      checkHint proom hint.lettersAndSources = Except.ok () ↔
        ∀ ls ∈ hint.lettersAndSources, checkLetterAndSource proom ls = Except.ok ()) := by
  refine ⟨?_, ?_, ?_, ?_, ?_⟩
  · exact processBonuses_count room.bonuses room.activeHint.hint L
  · show room.bonuses.count L ≤
      (processBonuses room.bonuses
        (bonusesUsedOf room.bonuses room.activeHint.hint)).count L + 1
    have h1 := processBonuses_count room.bonuses room.activeHint.hint L
    by_cases hc : LetterAndSource.bonus L ∈ room.activeHint.hint.lettersAndSources ∧
        L ∈ room.bonuses
    · rw [if_pos hc] at h1
      omega
    · rw [if_neg hc] at h1
      omega
  · intro rroom a rA p hp
    simp only [performResolveAction] at hp
    by_cases hcond : playersWithOutstandingAction
        ((applyResolution rA (recordResolveAction rroom a) a).activeHint) = ∅
    · rw [if_pos hcond] at hp
      have hpe : fullyResolveHint rand (applyResolution rA (recordResolveAction rroom a) a) =
          p := HintingPhase.proposing.inj hp
      subst hpe
      have hhint : (applyResolution rA (recordResolveAction rroom a) a).activeHint.hint =
          rroom.activeHint.hint := by
        rw [applyResolution_activeHint]
        rfl
      rw [← hhint]
      exact processBonuses_count
        (applyResolution rA (recordResolveAction rroom a) a).bonuses
        (applyResolution rA (recordResolveAction rroom a) a).activeHint.hint L
    · rw [if_neg hcond] at hp
      exact absurd hp (by simp)
  · intro proom l
    by_cases hmem : l ∈ proom.bonuses <;> simp [checkLetterAndSource, hmem]
  · intro proom hint
    exact checkHint_ok_iff proom hint.lettersAndSources

/-- Witness for C9: a mixed hint (duplicated `Bonus 'B'` plus dummy, player
and wildcard sources) completing through `performResolveAction` removes
exactly one of the two pooled copies of `'B'` and leaves `'D'` alone, and
the doubled citation passes the legality check against a single-copy pool. -/
theorem bonus_duplicate_citation_witness :
    ∃ p, performResolveAction 'Z' constLetterA resolvingRoomW9 (ResolveAction.none 1) =
        HintingPhase.proposing p ∧
      p.bonuses.count 'B' + 1 = resolvingRoomW9.bonuses.count 'B' ∧
      p.bonuses.count 'D' = resolvingRoomW9.bonuses.count 'D' ∧
      checkHint proposingRoomW [LetterAndSource.bonus 'B', LetterAndSource.bonus 'B'] =
        Except.ok () := by
  have h := bonus_duplicate_citation resolvingRoomW9 constLetterA 'B'
  have hcomp := performResolveAction_completes 'Z' constLetterA resolvingRoomW9
    (ResolveAction.none 1) (by decide)
  refine ⟨_, hcomp, ?_, ?_, ?_⟩
  · have h3 := h.2.2.1 resolvingRoomW9 (ResolveAction.none 1) 'Z' _ hcomp
    rw [if_pos (by decide)] at h3
    exact h3
  · have hD := (bonus_duplicate_citation resolvingRoomW9 constLetterA 'D').2.2.1
      resolvingRoomW9 (ResolveAction.none 1) 'Z' _ hcomp
    rw [if_neg (by decide)] at hD
    simpa using hD
  · refine (h.2.2.2.2 proposingRoomW
      ⟨1, [LetterAndSource.bonus 'B', LetterAndSource.bonus 'B']⟩).mpr ?_
    intro ls hls
    rcases List.mem_cons.mp hls with rfl | hls'
    · rfl
    · rcases List.mem_cons.mp hls' with rfl | h0
      · rfl
      · simp at h0


/-- Witness for C10: a flip action by an uninvolved-irrelevant player 1 is
recorded on the active hint. -/
theorem performResolveAction_no_legality_check_witness :
    (applyResolution 'Z' (recordResolveAction resolvingRoomW (ResolveAction.flip 1))
        (ResolveAction.flip 1)).activeHint.playerActions =
      resolvingRoomW.activeHint.playerActions ++ [ResolveAction.flip 1] :=
  (performResolveAction_no_legality_check resolvingRoomW (ResolveAction.flip 1) 'Z'
    constLetterA (by decide) (by decide)).1

end Strawberry
